import Mathlib

/-!
Verification of the sound-reader timeline compositor and audio mixdown engine.

The definitions below are a shallow embedding of the timeline / mixdown code of
the repository: the cadence scheduler, scene-anchor interpolator, overlay
placer and normalizer, render-length computation and WAV container encoder
found in the client mixers (the main page in src/unnamed/part_000 and
src/app/upload/page.tsx) and in the server route
(src/app/api/generate/route.ts).  JavaScript numbers are modelled as exact
rationals, byte buffers as lists of naturals, and fallible decoding as
`Option`-valued inputs.
-/

namespace SoundReader

/-- Decoded audio clip, modelling a Web Audio `AudioBuffer`: channel count,
sample rate (Hz), length in frames, and per-channel samples indexed
channel then frame (`buf.getChannelData(ch)[f]`). -/
structure AudioBuffer where
  numberOfChannels : ℕ
  sampleRate : ℕ
  frames : ℕ
  channelData : ℕ → ℕ → ℚ

/-- `AudioBuffer.duration` is `length / sampleRate` seconds, as in Web Audio. -/
def AudioBuffer.duration (b : AudioBuffer) : ℚ := (b.frames : ℚ) / (b.sampleRate : ℚ)

/-- The silent placeholder a failed speech decode is replaced with:
`new AudioContext().createBuffer(1, 1, 44100)` — one channel, one frame,
zero-filled, hence of duration 1/44100 seconds. -/
def placeholder : AudioBuffer where
  numberOfChannels := 1
  sampleRate := 44100
  frames := 1
  channelData := fun _ _ => 0

/-- Speech decode loop of `mixAudio`: each entry decodes to its buffer, and a
decode failure (`none`) is caught and replaced by the silent `placeholder`,
so the output list always has one buffer per input clip. -/
def decodeSegments (clips : List (Option AudioBuffer)) : List AudioBuffer :=
  clips.map (fun c => c.getD placeholder)

/-- Category of a narrative unit, from the `Segment.type` field of the main
page: narration or dialogue. -/
inductive SegmentType
  | narration
  | dialogue
deriving DecidableEq

/-- `GAP_NAR_TO_DLG = 0.22` — pause before a character speaks. -/
def GAP_NAR_TO_DLG : ℚ := 0.22

/-- `GAP_DLG_TO_NAR = 0.18` — pause before narration resumes. -/
def GAP_DLG_TO_NAR : ℚ := 0.18

/-- `GAP_DLG_TO_DLG = 0.12` — brief beat between speakers. -/
def GAP_DLG_TO_DLG : ℚ := 0.12

/-- The cadence gap inserted before unit `curr` when it follows `prev`, from
the if / else-if chain in the main-page `mixAudio`; the chain has no final
else, so narration followed by narration adds nothing. -/
def gapFor (prev curr : SegmentType) : ℚ :=
  match prev, curr with
  | .narration, .dialogue => GAP_NAR_TO_DLG
  | .dialogue, .narration => GAP_DLG_TO_NAR
  | .dialogue, .dialogue => GAP_DLG_TO_DLG
  | .narration, .narration => 0

/-- `GAP_BETWEEN_SCENES = 0.5` in the screenplay route and upload page. -/
def GAP_BETWEEN_SCENES : ℚ := 0.5

/-- Gap rule of the screenplay scheduler (route.ts step 5 and the upload-page
`mixAudio`): a scene change inserts `GAP_BETWEEN_SCENES`, otherwise
`GAP_DLG_TO_DLG`. -/
def sceneGap (prev curr : ℕ) : ℚ :=
  if prev ≠ curr then GAP_BETWEEN_SCENES else GAP_DLG_TO_DLG

/-- Body of the cadence loop after the first unit: carries the previous unit
(for the gap lookup) and the running cursor, consuming the remaining units
and the matching tail of the duration table (`segBuffers[i]?.duration ?? 0`
is `durs.headD 0`).  Returns the start times of the remaining units and the
final cursor. -/
def cadenceAux (gap : α → α → ℚ) (prev : α) (cursor : ℚ) :
    List α → List ℚ → List ℚ × ℚ
  | [], _ => ([], cursor)
  | t :: ts, durs =>
    let c := cursor + gap prev t
    let r := cadenceAux gap t (c + durs.headD 0) ts durs.tail
    (c :: r.1, r.2)

/-- The cadence scheduler loop: `cursor = 0`; for each unit `i`, if `i > 0`
add the gap for the pair `(unit[i-1], unit[i])`, push `cursor` as
`startTimes[i]`, then advance `cursor` by `durs[i] ?? 0`.  Returns the start
times together with the final cursor. -/
def cadenceRun (gap : α → α → ℚ) : List α → List ℚ → List ℚ × ℚ
  | [], _ => ([], 0)
  | t :: ts, durs =>
    let r := cadenceAux gap t (durs.headD 0) ts durs.tail
    (0 :: r.1, r.2)

/-- Start times and final cursor of the main-page speech timeline
(`mixAudio` in src/unnamed/part_000). -/
def segmentTimeline (units : List SegmentType) (durs : List ℚ) : List ℚ × ℚ :=
  cadenceRun gapFor units durs

/-- Start times and final cursor of the screenplay speech timeline
(`lineStartTimes` in route.ts and the upload-page `mixAudio`), driven by the
scene index of each dialogue line. -/
def lineTimeline (sceneIdxs : List ℕ) (durs : List ℚ) : List ℚ × ℚ :=
  cadenceRun sceneGap sceneIdxs durs

/-- An overlay clip (sound effect or music) before decoding: the anchor index
(`segmentIndex` on the main page, `sceneIndex` in the screenplay flow), the
server-supplied fallback `startTime`, and the encoded payload, `none` when
its bytes fail to decode. -/
structure OverlayItem where
  anchorIndex : ℕ
  startTime : ℚ
  payload : Option AudioBuffer

/-- Overlay decode-and-place loop of `mixAudio`: a clip that decodes is paired
with `startTimes[anchorIndex] ?? startTime`; a clip that fails to decode is
skipped entirely (the catch block does nothing). -/
def decodeOverlays (startTimes : List ℚ) (items : List OverlayItem) :
    List (AudioBuffer × ℚ) :=
  items.filterMap fun item =>
    item.payload.map fun b => (b, startTimes.getD item.anchorIndex item.startTime)

/-- The reduce computing the latest overlay end time:
`max m (startTime + buffer.duration)` folded from 0. -/
def maxOverlayEnd (placed : List (AudioBuffer × ℚ)) : ℚ :=
  placed.foldl (fun m p => max m (p.2 + p.1.duration)) 0

/-- `segBuffers[0]?.sampleRate ?? 44100`: the mix sample rate is read off the
first decoded slot, defaulting to 44100 only when there are no speech clips
at all. -/
def mixSampleRate (bufs : List AudioBuffer) : ℕ :=
  match bufs with
  | [] => 44100
  | b :: _ => b.sampleRate

/-- `segBuffers[0]?.numberOfChannels ?? 1`: channel count of the mix, read off
the first decoded slot, defaulting to mono when there are no speech clips. -/
def mixNumChannels (bufs : List AudioBuffer) : ℕ :=
  match bufs with
  | [] => 1
  | b :: _ => b.numberOfChannels

/-- Render length requested by the main-page `mixAudio`
(src/unnamed/part_000): `Math.ceil(totalDuration * sampleRate)` with
`totalDuration = Math.max(cursor, latest sfx end)` — note the absence of any
lower bound on the length. -/
def mainRenderLength (units : List SegmentType) (clips : List (Option AudioBuffer))
    (sfxItems : List OverlayItem) : ℕ :=
  let bufs := decodeSegments clips
  let tl := segmentTimeline units (bufs.map AudioBuffer.duration)
  let placed := decodeOverlays tl.1 sfxItems
  (⌈max tl.2 (maxOverlayEnd placed) * (mixSampleRate bufs : ℚ)⌉).toNat

/-- Render length requested by the upload-page `mixAudio`
(src/app/upload/page.tsx): `Math.max(1, Math.ceil(totalDuration * sampleRate))`
with `totalDuration = Math.max(cursor, latest sfx end, latest music end)`;
overlays are placed by the server-provided scene start times. -/
def uploadRenderLength (sceneIdxs : List ℕ) (clips : List (Option AudioBuffer))
    (sfxItems musicItems : List OverlayItem) (sceneStarts : List ℚ) : ℕ :=
  let bufs := decodeSegments clips
  let tl := lineTimeline sceneIdxs (bufs.map AudioBuffer.duration)
  let placedSfx := decodeOverlays sceneStarts sfxItems
  let placedMusic := decodeOverlays sceneStarts musicItems
  let total := max tl.2 (max (maxOverlayEnd placedSfx) (maxOverlayEnd placedMusic))
  max 1 (⌈total * (mixSampleRate bufs : ℚ)⌉).toNat

/-- Peak amplitude of an effect clip: the nested loop over channels and
samples folding `max` of absolute sample values from 0. -/
def clipPeak (buf : AudioBuffer) : ℚ :=
  (List.range buf.numberOfChannels).foldl
    (fun p ch => (List.range buf.frames).foldl
      (fun q s => max q |buf.channelData ch s|) p) 0

/-- `TARGET_PEAK = 0.6`, the normalization target for sound effects. -/
def TARGET_PEAK : ℚ := 0.6

/-- The gain applied to a sound-effect clip:
`peak > 0 ? TARGET_PEAK / peak : TARGET_PEAK`. -/
def sfxGain (buf : AudioBuffer) : ℚ :=
  if 0 < clipPeak buf then TARGET_PEAK / clipPeak buf else TARGET_PEAK

/-- Backward anchor scan of the scene interpolator (route.ts):
`prevIdx = i - 1; while (prevIdx >= 0 && raw[prevIdx] === null) prevIdx--`;
returns the nearest anchored index below `i`, or `none` when the scan runs
off the front (the code then holds -1). -/
def findPrevAnchor (raw : List (Option ℚ)) : ℕ → Option ℕ
  | 0 => none
  | i + 1 => if (raw.getD i none).isSome then some i else findPrevAnchor raw i

/-- Forward anchor scan over the suffix of `raw` starting at index `j`:
returns the absolute index of the first anchored scene at or after `j`, or
`raw.length` when the scan runs off the end. -/
def findNextAux (suffix : List (Option ℚ)) (j : ℕ) : ℕ :=
  match suffix with
  | [] => j
  | t :: rest => if t.isSome then j else findNextAux rest (j + 1)

/-- Forward anchor scan of the scene interpolator (route.ts):
`nextIdx = i + 1; while (nextIdx < raw.length && raw[nextIdx] === null)
nextIdx++`. -/
def findNextAnchor (raw : List (Option ℚ)) (j : ℕ) : ℕ :=
  findNextAux (raw.drop j) j

/-- Start time of scene `i` (route.ts `sceneStartTimes`): an anchored scene
keeps its anchor; an unanchored scene interpolates linearly by index distance
between the nearest anchors, with value 0 at virtual index -1 when no anchor
precedes it, and the final speech cursor at virtual index `raw.length` when
no anchor follows it. -/
def sceneStart (raw : List (Option ℚ)) (cursor : ℚ) (i : ℕ) : ℚ :=
  match raw.getD i none with
  | some t => t
  | none =>
    let prevIdx : ℤ := match findPrevAnchor raw i with
      | some p => (p : ℤ)
      | none => -1
    let nextIdx : ℕ := findNextAnchor raw (i + 1)
    let prevTime : ℚ := match findPrevAnchor raw i with
      | some p => (raw.getD p none).getD 0
      | none => 0
    let nextTime : ℚ := if nextIdx < raw.length then (raw.getD nextIdx none).getD 0 else cursor
    let span : ℚ := (nextIdx : ℚ) - (prevIdx : ℚ)
    prevTime + (((i : ℚ) - (prevIdx : ℚ)) / span) * (nextTime - prevTime)

/-- The full interpolated scene start-time table. -/
def sceneStartTimes (raw : List (Option ℚ)) (cursor : ℚ) : List ℚ :=
  (List.range raw.length).map (sceneStart raw cursor)

/-- Two little-endian bytes of `n`, as written by `setUint16(…, n, true)`. -/
def u16le (n : ℕ) : List ℕ := [n % 256, n / 256 % 256]

/-- Four little-endian bytes of `n`, as written by `setUint32(…, n, true)`. -/
def u32le (n : ℕ) : List ℕ :=
  [n % 256, n / 256 % 256, n / 65536 % 256, n / 16777216 % 256]

/-- `Math.max(-1, Math.min(1, s))`. -/
def clampSample (s : ℚ) : ℚ := max (-1) (min 1 s)

/-- Truncation toward zero, the integer conversion `setInt16` applies to a
non-integral number. -/
def truncTowardZero (x : ℚ) : ℤ := if x < 0 then ⌈x⌉ else ⌊x⌋

/-- The 16-bit value stored for one sample: clamp to [-1, 1], then scale
negative values by 32768 and non-negative ones by 32767
(`s < 0 ? s * 32768 : s * 32767`). -/
def sampleToInt16 (s : ℚ) : ℤ :=
  let c := clampSample s
  if c < 0 then truncTowardZero (c * 32768) else truncTowardZero (c * 32767)

/-- Little-endian bytes of a signed 16-bit store: `setInt16` keeps the value
modulo 2^16 (twos complement). -/
def i16le (v : ℤ) : List ℕ := u16le (v % 65536).toNat

/-- Bytes of one encoded sample. -/
def sampleBytes (s : ℚ) : List ℕ := i16le (sampleToInt16 s)

/-- The 44-byte canonical WAV header written by `audioBufferToWav` /
`pcmToWav`: RIFF chunk size 36 + dataSize, WAVE, fmt chunk of size 16 with
PCM tag 1, channel count, sample rate, byte rate, block align, bit depth 16,
then the data chunk header.  The ASCII tags RIFF, WAVE, fmt and data appear
as their character codes. -/
def wavHeader (numCh sr len : ℕ) : List ℕ :=
  [82, 73, 70, 70] ++ u32le (36 + len * numCh * 2) ++ [87, 65, 86, 69] ++
  [102, 109, 116, 32] ++ u32le 16 ++ u16le 1 ++ u16le numCh ++ u32le sr ++
  u32le (sr * numCh * 2) ++ u16le (numCh * 2) ++ u16le 16 ++
  [100, 97, 116, 97] ++ u32le (len * numCh * 2)

/-- The interleaved sample data: frames outermost, channels innermost, two
bytes per sample. -/
def wavData (buf : AudioBuffer) : List ℕ :=
  ((List.range buf.frames).map fun f =>
    ((List.range buf.numberOfChannels).map fun ch =>
      sampleBytes (buf.channelData ch f)).flatten).flatten

/-- `audioBufferToWav`: the 44-byte header followed by the interleaved
clamped 16-bit samples.  The sequence of `DataView` writes at consecutive
disjoint offsets exactly covering the `44 + dataSize` array is modelled as
list concatenation. -/
def audioBufferToWav (buf : AudioBuffer) : List ℕ :=
  wavHeader buf.numberOfChannels buf.sampleRate buf.frames ++ wavData buf

/-- Byte read (0 beyond the end). -/
def readByte (bs : List ℕ) (i : ℕ) : ℕ := bs.getD i 0

/-- Little-endian 16-bit read. -/
def readU16 (bs : List ℕ) (i : ℕ) : ℕ := readByte bs i + 256 * readByte bs (i + 1)

/-- Little-endian 32-bit read. -/
def readU32 (bs : List ℕ) (i : ℕ) : ℕ := readU16 bs i + 65536 * readU16 bs (i + 2)

/-- Little-endian signed 16-bit read (twos complement). -/
def readI16 (bs : List ℕ) (i : ℕ) : ℤ :=
  let u := readU16 bs i
  if u < 32768 then (u : ℤ) else (u : ℤ) - 65536

/-- A one-second mono clip at 44100 Hz, used as a concrete decoded speech
clip in witnesses. -/
def oneSecondClip : AudioBuffer where
  numberOfChannels := 1
  sampleRate := 44100
  frames := 44100
  channelData := fun _ _ => 0

/-- A stereo 48 kHz clip, used to exhibit the render-format provenance. -/
def stereo48kClip : AudioBuffer where
  numberOfChannels := 2
  sampleRate := 48000
  frames := 480
  channelData := fun _ _ => 0

/-- An all-zero (silent) effect clip. -/
def silentClip : AudioBuffer where
  numberOfChannels := 1
  sampleRate := 44100
  frames := 3
  channelData := fun _ _ => 0

/-- A tiny two-frame mono buffer with samples 1/2 and -3/4, used to evaluate
the WAV encoder concretely. -/
def demoClip : AudioBuffer where
  numberOfChannels := 1
  sampleRate := 8000
  frames := 2
  channelData := fun _ f => if f = 0 then 1/2 else -(3/4)

/-! ## Cadence scheduler lemmas -/

theorem cadenceAux_nil (gap : α → α → ℚ) (prev : α) (c : ℚ) (durs : List ℚ) :
    cadenceAux gap prev c [] durs = ([], c) := rfl

theorem cadenceAux_cons (gap : α → α → ℚ) (prev : α) (c : ℚ) (t : α) (ts : List α)
    (durs : List ℚ) :
    cadenceAux gap prev c (t :: ts) durs =
      ((c + gap prev t) ::
          (cadenceAux gap t (c + gap prev t + durs.headD 0) ts durs.tail).1,
        (cadenceAux gap t (c + gap prev t + durs.headD 0) ts durs.tail).2) := rfl

theorem cadenceAux_length (gap : α → α → ℚ) (ts : List α) :
    ∀ (durs : List ℚ) (prev : α) (c : ℚ),
      (cadenceAux gap prev c ts durs).1.length = ts.length := by
  induction ts with
  | nil => intro durs prev c; rfl
  | cons t ts ih =>
    intro durs prev c
    rw [cadenceAux_cons]
    simp [ih]

theorem headD_eq_getD_zero (durs : List ℚ) : durs.head?.getD 0 = durs[0]?.getD 0 := by
  cases durs <;> simp

theorem tail_getD (durs : List ℚ) (i : ℕ) : durs.tail.getD i 0 = durs.getD (i + 1) 0 := by
  cases durs <;> rfl

theorem cadenceAux_rec (gap : α → α → ℚ) (d₀ : α) (ts : List α) :
    ∀ (durs : List ℚ) (prev : α) (c : ℚ) (i : ℕ), i + 1 < ts.length →
      (cadenceAux gap prev c ts durs).1.getD (i + 1) 0 =
        (cadenceAux gap prev c ts durs).1.getD i 0 + durs.getD i 0 +
          gap (ts.getD i d₀) (ts.getD (i + 1) d₀) := by
  induction ts with
  | nil => intro durs prev c i h; simp at h
  | cons t ts ih =>
    intro durs prev c i h
    rw [cadenceAux_cons]
    match i with
    | 0 =>
      match ts, h with
      | t2 :: ts2, _ =>
        rw [cadenceAux_cons]
        simp [headD_eq_getD_zero]
        try ring
    | j + 1 =>
      have hj : j + 1 < ts.length := by simpa using h
      simp only [List.getD_cons_succ]
      rw [ih durs.tail t (c + gap prev t + durs.headD 0) j hj]
      simp [tail_getD]

theorem cadenceRun_length (gap : α → α → ℚ) (units : List α) (durs : List ℚ) :
    (cadenceRun gap units durs).1.length = units.length := by
  cases units with
  | nil => rfl
  | cons t ts => simp [cadenceRun, cadenceAux_length]

theorem cadenceRun_getD_zero (gap : α → α → ℚ) (units : List α) (durs : List ℚ) :
    (cadenceRun gap units durs).1.getD 0 0 = 0 := by
  cases units <;> rfl

theorem cadenceRun_rec (gap : α → α → ℚ) (d₀ : α) (units : List α) (durs : List ℚ)
    (i : ℕ) (h : i + 1 < units.length) :
    (cadenceRun gap units durs).1.getD (i + 1) 0 =
      (cadenceRun gap units durs).1.getD i 0 + durs.getD i 0 +
        gap (units.getD i d₀) (units.getD (i + 1) d₀) := by
  match units, h with
  | t :: ts, h =>
    match i with
    | 0 =>
      match ts, h with
      | t2 :: ts2, _ =>
        simp only [cadenceRun, cadenceAux_cons]
        simp [headD_eq_getD_zero]
        try ring
    | j + 1 =>
      have hj : j + 1 < ts.length := by simpa using h
      simp only [cadenceRun, List.getD_cons_succ]
      rw [cadenceAux_rec gap d₀ ts durs.tail t (durs.headD 0) j hj]
      simp [tail_getD]

theorem gapFor_nonneg (a b : SegmentType) : 0 ≤ gapFor a b := by
  cases a <;> cases b <;> norm_num [gapFor, GAP_NAR_TO_DLG, GAP_DLG_TO_NAR, GAP_DLG_TO_DLG]

theorem sceneGap_nonneg (a b : ℕ) : 0 ≤ sceneGap a b := by
  unfold sceneGap
  split <;> norm_num [GAP_BETWEEN_SCENES, GAP_DLG_TO_DLG]

theorem getD_nonneg_of_forall (durs : List ℚ) (h : ∀ d ∈ durs, 0 ≤ d) (i : ℕ) :
    0 ≤ durs.getD i 0 := by
  rcases lt_or_le i durs.length with hi | hi
  · rw [List.getD_eq_getElem durs 0 hi]
    exact h _ (List.getElem_mem hi)
  · rw [List.getD_eq_default durs 0 hi]

theorem cadenceRun_step_le (gap : α → α → ℚ) (hgap : ∀ a b, 0 ≤ gap a b) (d₀ : α)
    (units : List α) (durs : List ℚ) (hdurs : ∀ d ∈ durs, 0 ≤ d)
    (i : ℕ) (h : i + 1 < units.length) :
    (cadenceRun gap units durs).1.getD i 0 + durs.getD i 0 ≤
      (cadenceRun gap units durs).1.getD (i + 1) 0 ∧
    (cadenceRun gap units durs).1.getD i 0 ≤
      (cadenceRun gap units durs).1.getD (i + 1) 0 := by
  rw [cadenceRun_rec gap d₀ units durs i h]
  have h1 := hgap (units.getD i d₀) (units.getD (i + 1) d₀)
  have h2 := getD_nonneg_of_forall durs hdurs i
  constructor <;> linarith

/-! ## C1 and C2: cadence correctness and speech non-overlap -/

/-- C1.  Cadence scheduling: the start-time list has one entry per unit,
`startTime[0] = 0`, and each later start time adds the previous duration plus
the gap for the ordered category pair; the gap table is 0.22 for
narration-to-dialogue, 0.18 for dialogue-to-narration, 0.12 for
dialogue-to-dialogue and 0 for narration-to-narration; on the units
[Narration(1.0 s), Dialogue(2.0 s), Dialogue(1.5 s), Narration(0.5 s)] the
computed start times are [0.0, 1.22, 3.34, 5.02]. -/
theorem cadence_schedule_correct (units : List SegmentType) (durs : List ℚ) :
    (segmentTimeline units durs).1.length = units.length ∧
    (segmentTimeline units durs).1.getD 0 0 = 0 ∧
    (∀ i, i + 1 < units.length →
      (segmentTimeline units durs).1.getD (i + 1) 0 =
        (segmentTimeline units durs).1.getD i 0 + durs.getD i 0 +
          gapFor (units.getD i .narration) (units.getD (i + 1) .narration)) ∧
    gapFor .narration .dialogue = 11/50 ∧
    gapFor .dialogue .narration = 9/50 ∧
    gapFor .dialogue .dialogue = 3/25 ∧
    gapFor .narration .narration = 0 ∧
    segmentTimeline [.narration, .dialogue, .dialogue, .narration] [1, 2, 3/2, 1/2] =
      ([0, 61/50, 167/50, 251/50], 138/25) := by
  refine ⟨cadenceRun_length _ _ _, cadenceRun_getD_zero _ _ _,
    fun i h => cadenceRun_rec gapFor .narration units durs i h, ?_, ?_, ?_, ?_, ?_⟩
  · norm_num [gapFor, GAP_NAR_TO_DLG]
  · norm_num [gapFor, GAP_DLG_TO_NAR]
  · norm_num [gapFor, GAP_DLG_TO_DLG]
  · rfl
  · norm_num [segmentTimeline, cadenceRun, cadenceAux, gapFor, GAP_NAR_TO_DLG,
      GAP_DLG_TO_NAR, GAP_DLG_TO_DLG]

/-- Witness for C1 at the concrete unit list of the claim, instantiating the
recurrence at i = 1 (the dialogue-to-dialogue step). -/
theorem cadence_schedule_correct_witness :
    (segmentTimeline [.narration, .dialogue, .dialogue, .narration] [1, 2, 3/2, 1/2]).1.getD 2 0 =
      (segmentTimeline [.narration, .dialogue, .dialogue, .narration] [1, 2, 3/2, 1/2]).1.getD 1 0 +
        ([(1 : ℚ), 2, 3/2, 1/2].getD 1 0) + gapFor .dialogue .dialogue :=
  (cadence_schedule_correct [.narration, .dialogue, .dialogue, .narration]
    [1, 2, 3/2, 1/2]).2.2.1 1 (by norm_num)

/-- C2.  Speech non-overlap: with non-negative durations, successive start
times of the cadence scheduler satisfy
`startTime[i] + duration[i] <= startTime[i+1]` (and hence the start times are
monotonically non-decreasing); this holds both for the main-page
narration/dialogue scheduler and for the screenplay line scheduler. -/
theorem speech_non_overlap (units : List SegmentType) (durs : List ℚ)
    (sceneIdxs : List ℕ) (durs2 : List ℚ)
    (hdurs : ∀ d ∈ durs, 0 ≤ d) (hdurs2 : ∀ d ∈ durs2, 0 ≤ d) :
    (∀ i, i + 1 < units.length →
      (segmentTimeline units durs).1.getD i 0 + durs.getD i 0 ≤
        (segmentTimeline units durs).1.getD (i + 1) 0 ∧
      (segmentTimeline units durs).1.getD i 0 ≤
        (segmentTimeline units durs).1.getD (i + 1) 0) ∧
    (∀ i, i + 1 < sceneIdxs.length →
      (lineTimeline sceneIdxs durs2).1.getD i 0 + durs2.getD i 0 ≤
        (lineTimeline sceneIdxs durs2).1.getD (i + 1) 0 ∧
      (lineTimeline sceneIdxs durs2).1.getD i 0 ≤
        (lineTimeline sceneIdxs durs2).1.getD (i + 1) 0) := by
  constructor
  · exact fun i h => cadenceRun_step_le gapFor gapFor_nonneg .narration units durs hdurs i h
  · exact fun i h => cadenceRun_step_le sceneGap sceneGap_nonneg 0 sceneIdxs durs2 hdurs2 i h

/-- Witness for C2 on the concrete claim inputs, at the first pair of units. -/
theorem speech_non_overlap_witness :
    (segmentTimeline [.narration, .dialogue] [1, 2]).1.getD 0 0 + ([(1 : ℚ), 2].getD 0 0) ≤
      (segmentTimeline [.narration, .dialogue] [1, 2]).1.getD 1 0 :=
  ((speech_non_overlap [.narration, .dialogue] [1, 2] [0] [1]
    (by intro d hd; simp at hd; rcases hd with h | h <;> norm_num [h])
    (by intro d hd; simp at hd; norm_num [hd])).1 0 (by norm_num)).1

/-! ## Anchor interpolation lemmas -/

theorem findPrevAnchor_spec (raw : List (Option ℚ)) (p : ℕ) (hp : (raw.getD p none).isSome) :
    ∀ i, p < i → (∀ j, p < j → j < i → raw.getD j none = none) →
      findPrevAnchor raw i = some p := by
  intro i
  induction i with
  | zero => intro h; omega
  | succ k ih =>
    intro hpk hmid
    rw [findPrevAnchor]
    by_cases hk : p = k
    · subst hk
      rw [if_pos hp]
    · have hpk2 : p < k := by omega
      have hknone : raw.getD k none = none := hmid k hpk2 (Nat.lt_succ_self k)
      rw [hknone]
      simp only [Option.isSome_none, Bool.false_eq_true, if_false]
      exact ih hpk2 (fun j h1 h2 => hmid j h1 (by omega))

theorem findNextAux_all_none (suffix : List (Option ℚ)) :
    ∀ j, (∀ x ∈ suffix, x = none) → findNextAux suffix j = j + suffix.length := by
  induction suffix with
  | nil => intro j _; simp [findNextAux]
  | cons t rest ih =>
    intro j h
    have ht : t = none := h t (by simp)
    subst ht
    simp only [findNextAux, Option.isSome_none, Bool.false_eq_true, if_false]
    rw [ih (j + 1) (fun x hx => h x (by simp [hx]))]
    simp
    omega

theorem findNextAux_first_some (suffix : List (Option ℚ)) :
    ∀ (j k : ℕ), k < suffix.length → (suffix.getD k none).isSome →
      (∀ m, m < k → suffix.getD m none = none) →
      findNextAux suffix j = j + k := by
  induction suffix with
  | nil => intro j k hk; simp at hk
  | cons t rest ih =>
    intro j k hk hsome hbefore
    match k with
    | 0 =>
      simp only [List.getD_cons_zero] at hsome
      simp [findNextAux, hsome]
    | k' + 1 =>
      have ht : t = none := by
        have := hbefore 0 (Nat.succ_pos k')
        simpa using this
      subst ht
      simp only [findNextAux, Option.isSome_none, Bool.false_eq_true, if_false]
      rw [ih (j + 1) k' (by simpa using hk) (by simpa using hsome)
        (fun m hm => by simpa using hbefore (m + 1) (by omega))]
      omega

theorem getD_drop (raw : List (Option ℚ)) (j m : ℕ) :
    (raw.drop j).getD m none = raw.getD (j + m) none := by
  simp [List.getD_eq_getElem?_getD, List.getElem?_drop]

theorem findNextAnchor_none (raw : List (Option ℚ)) (j : ℕ)
    (h : ∀ k, j ≤ k → k < raw.length → raw.getD k none = none) :
    findNextAnchor raw j = max j raw.length := by
  unfold findNextAnchor
  rw [findNextAux_all_none (raw.drop j) j]
  · simp [List.length_drop]
    omega
  · intro x hx
    rw [List.mem_iff_getElem] at hx
    obtain ⟨m, hm, hxm⟩ := hx
    have hlen : j + m < raw.length := by
      simp [List.length_drop] at hm
      omega
    have := h (j + m) (by omega) hlen
    rw [← hxm]
    have h2 := getD_drop raw j m
    rw [List.getD_eq_getElem _ none hm] at h2
    rw [h2]
    exact this

theorem findNextAnchor_some (raw : List (Option ℚ)) (j q : ℕ) (hjq : j ≤ q)
    (hq : q < raw.length) (hsome : (raw.getD q none).isSome)
    (hmid : ∀ k, j ≤ k → k < q → raw.getD k none = none) :
    findNextAnchor raw j = q := by
  unfold findNextAnchor
  rw [findNextAux_first_some (raw.drop j) j (q - j)]
  · omega
  · simp [List.length_drop]; omega
  · rw [getD_drop]
    have : j + (q - j) = q := by omega
    rw [this]
    exact hsome
  · intro m hm
    rw [getD_drop]
    exact hmid (j + m) (by omega) (by omega)

/-! ## C3 and C4: anchor interpolation -/

/-- C3 counterexample.  For the scene list [anchored@2.0, unanchored] with
final cursor 10.0, the code interpolates the second scene to
2.0 + (1/2)·(10.0 − 2.0) = 6.0, not to 10.0 as the claim computes: the
virtual forward anchor sits at index 2 (one past the end), so the span is 2,
not 1. -/
theorem interp_no_trailing_anchor_counterexample :
    sceneStart [some 2, none] 10 1 = 6 ∧ sceneStart [some 2, none] 10 1 ≠ 10 ∧
    sceneStartTimes [some 2, none] 10 = [2, 6] := by
  refine ⟨?_, ?_, ?_⟩ <;>
    norm_num [sceneStart, sceneStartTimes, findPrevAnchor, findNextAnchor, findNextAux,
      List.range_succ]

/-- C3 as amended.  For an unanchored scene at position i whose nearest
preceding anchor is at position p with value a and with no anchored scene
after p, the cursor is used as the forward anchor value at virtual index
`raw.length`, so the start time is a + ((i − p)/(length − p))·(cursor − a);
for [anchored@2.0, unanchored] with cursor 10.0 this gives
2.0 + (1/2)·(10.0 − 2.0) = 6.0. -/
theorem interp_no_trailing_anchor_amended (raw : List (Option ℚ)) (cursor a : ℚ)
    (p i : ℕ) (hpi : p < i) (hil : i < raw.length)
    (hpa : raw.getD p none = some a)
    (hafter : ∀ j, p < j → j < raw.length → raw.getD j none = none) :
    sceneStart raw cursor i =
      a + (((i : ℚ) - (p : ℚ)) / ((raw.length : ℚ) - (p : ℚ))) * (cursor - a) := by
  have hnone : raw.getD i none = none := hafter i hpi hil
  have hprev : findPrevAnchor raw i = some p :=
    findPrevAnchor_spec raw p (by rw [hpa]; rfl) i hpi
      (fun j h1 h2 => hafter j h1 (by omega))
  have hnext : findNextAnchor raw (i + 1) = max (i + 1) raw.length :=
    findNextAnchor_none raw (i + 1) (fun k hk1 hk2 => hafter k (by omega) hk2)
  have hmax : max (i + 1) raw.length = raw.length := by omega
  unfold sceneStart
  rw [hnone]
  simp only [hprev, hnext, hmax, hpa, Option.getD_some]
  have : ¬ (raw.length < raw.length) := lt_irrefl _
  simp only [this, if_false]
  push_cast
  ring

/-- Witness for the amended C3 on the concrete scene list of the claim. -/
theorem interp_no_trailing_anchor_amended_witness :
    sceneStart [some 2, none] 10 1 =
      2 + (((1 : ℚ) - 0) / ((2 : ℚ) - 0)) * (10 - 2) := by
  have h := interp_no_trailing_anchor_amended [some 2, none] 10 2 0 1
    (by norm_num) (by norm_num) (by norm_num)
    (fun j h1 h2 => by
      simp at h2
      interval_cases j; rfl)
  simpa using h

/-- C4.  For an unanchored scene at position i whose nearest anchors are at
positions p (value a, before) and q (value b, after), the code assigns
a + ((i − p)/(q − p))·(b − a): linear interpolation by index distance. -/
theorem interp_between_anchors (raw : List (Option ℚ)) (cursor a b : ℚ)
    (p i q : ℕ) (hpi : p < i) (hiq : i < q) (hq : q < raw.length)
    (hpa : raw.getD p none = some a) (hqb : raw.getD q none = some b)
    (hmid : ∀ j, p < j → j < q → raw.getD j none = none) :
    sceneStart raw cursor i =
      a + (((i : ℚ) - (p : ℚ)) / ((q : ℚ) - (p : ℚ))) * (b - a) := by
  have hnone : raw.getD i none = none := hmid i hpi hiq
  have hprev : findPrevAnchor raw i = some p :=
    findPrevAnchor_spec raw p (by rw [hpa]; rfl) i hpi
      (fun j h1 h2 => hmid j h1 (by omega))
  have hnext : findNextAnchor raw (i + 1) = q :=
    findNextAnchor_some raw (i + 1) q (by omega) hq (by rw [hqb]; rfl)
      (fun k hk1 hk2 => hmid k (by omega) hk2)
  unfold sceneStart
  rw [hnone]
  simp only [hprev, hnext, hq, if_true, hpa, hqb, Option.getD_some]
  push_cast
  ring

/-- Witness for C4: the claim example [anchored@0.0, unanchored, unanchored,
anchored@9.0] interpolates scene 1 to 0 + (1/3)·9 = 3. -/
theorem interp_between_anchors_witness :
    sceneStart [some 0, none, none, some 9] 12 1 =
      0 + (((1 : ℚ) - 0) / ((3 : ℚ) - 0)) * (9 - 0) := by
  have h := interp_between_anchors [some 0, none, none, some 9] 12 0 9 0 1 3
    (by norm_num) (by norm_num) (by norm_num) (by norm_num) (by norm_num)
    (fun j h1 h2 => by interval_cases j <;> rfl)
  simpa using h

/-! ## Shift and difference lemmas for decode-failure analysis -/

theorem cadenceAux_shift (gap : α → α → ℚ) (ts : List α) :
    ∀ (durs : List ℚ) (prev : α) (c δ : ℚ),
      (cadenceAux gap prev (c + δ) ts durs).1 =
        (cadenceAux gap prev c ts durs).1.map (· + δ) ∧
      (cadenceAux gap prev (c + δ) ts durs).2 =
        (cadenceAux gap prev c ts durs).2 + δ := by
  induction ts with
  | nil => intro durs prev c δ; simp [cadenceAux_nil]
  | cons t ts ih =>
    intro durs prev c δ
    rw [cadenceAux_cons, cadenceAux_cons]
    have harg : c + δ + gap prev t + durs.head?.getD 0 =
        c + gap prev t + durs.head?.getD 0 + δ := by ring
    have harg2 : c + δ + gap prev t = c + gap prev t + δ := by ring
    constructor
    · simp only [List.map_cons]
      rw [show (cadenceAux gap t (c + δ + gap prev t + durs.headD 0) ts durs.tail) =
          (cadenceAux gap t (c + gap prev t + durs.headD 0 + δ) ts durs.tail) by
        simp only [List.headD_eq_head?_getD] at harg ⊢
        rw [harg]]
      rw [(ih durs.tail t (c + gap prev t + durs.headD 0) δ).1]
      simp [harg2]
    · rw [show (cadenceAux gap t (c + δ + gap prev t + durs.headD 0) ts durs.tail) =
          (cadenceAux gap t (c + gap prev t + durs.headD 0 + δ) ts durs.tail) by
        simp only [List.headD_eq_head?_getD] at harg ⊢
        rw [harg]]
      rw [(ih durs.tail t (c + gap prev t + durs.headD 0) δ).2]

theorem getD_map_add (l : List ℚ) (δ : ℚ) (i : ℕ) (h : i < l.length) :
    (l.map (· + δ)).getD i 0 = l.getD i 0 + δ := by
  rw [List.getD_eq_getElem _ 0 (by simpa using h), List.getD_eq_getElem _ 0 h]
  simp

theorem cadenceAux_diff (gap : α → α → ℚ) (pre : List ℚ) :
    ∀ (ts : List α) (post : List ℚ) (prev : α) (c x y : ℚ),
      pre.length < ts.length →
      ((∀ i, i ≤ pre.length →
        (cadenceAux gap prev c ts (pre ++ x :: post)).1.getD i 0 =
          (cadenceAux gap prev c ts (pre ++ y :: post)).1.getD i 0) ∧
      (∀ i, pre.length < i → i < ts.length →
        (cadenceAux gap prev c ts (pre ++ x :: post)).1.getD i 0 =
          (cadenceAux gap prev c ts (pre ++ y :: post)).1.getD i 0 + (x - y)) ∧
      (cadenceAux gap prev c ts (pre ++ x :: post)).2 =
        (cadenceAux gap prev c ts (pre ++ y :: post)).2 + (x - y)) := by
  induction pre with
  | nil =>
    intro ts post prev c x y hlen
    match ts, hlen with
    | t :: ts2, _ =>
      rw [List.nil_append, List.nil_append, cadenceAux_cons, cadenceAux_cons]
      simp only [List.headD_cons, List.tail_cons]
      have hs := cadenceAux_shift gap ts2 post t (c + gap prev t + y) (x - y)
      have harg : c + gap prev t + y + (x - y) = c + gap prev t + x := by ring
      rw [harg] at hs
      refine ⟨?_, ?_, ?_⟩
      · intro i hi
        have hi0 : i = 0 := by simpa using hi
        subst hi0
        simp
      · intro i hpos hlt
        match i, hpos with
        | j + 1, _ =>
          simp only [List.getD_cons_succ]
          rw [hs.1]
          exact getD_map_add _ _ j (by
            rw [cadenceAux_length]
            simpa using hlt)
      · simp [hs.2]
  | cons d pre2 ih =>
    intro ts post prev c x y hlen
    match ts, hlen with
    | t :: ts2, hlen9 =>
      rw [List.cons_append, cadenceAux_cons, cadenceAux_cons]
      simp only [List.headD_cons, List.tail_cons]
      have hlen2 : pre2.length < ts2.length := by simpa using hlen9
      have hrec := ih ts2 post t (c + gap prev t + d) x y hlen2
      refine ⟨?_, ?_, ?_⟩
      · intro i hi
        match i with
        | 0 => simp
        | j + 1 =>
          simp only [List.getD_cons_succ]
          exact hrec.1 j (by simpa using hi)
      · intro i hpos hlt
        match i, hpos, hlt with
        | j + 1, hpos9, hlt9 =>
          simp only [List.getD_cons_succ]
          exact hrec.2.1 j (by simpa using hpos9) (by simpa using hlt9)
      · exact hrec.2.2

theorem cadenceRun_diff (gap : α → α → ℚ) (units : List α) (pre post : List ℚ)
    (x y : ℚ) (hlen : pre.length < units.length) :
    (∀ i, i ≤ pre.length →
      (cadenceRun gap units (pre ++ x :: post)).1.getD i 0 =
        (cadenceRun gap units (pre ++ y :: post)).1.getD i 0) ∧
    (∀ i, pre.length < i → i < units.length →
      (cadenceRun gap units (pre ++ x :: post)).1.getD i 0 =
        (cadenceRun gap units (pre ++ y :: post)).1.getD i 0 + (x - y)) ∧
    (cadenceRun gap units (pre ++ x :: post)).2 =
      (cadenceRun gap units (pre ++ y :: post)).2 + (x - y) := by
  match units, hlen with
  | t :: ts, hlen8 =>
    match pre with
    | [] =>
      rw [List.nil_append, List.nil_append]
      simp only [cadenceRun, List.headD_cons, List.tail_cons]
      have hs := cadenceAux_shift gap ts post t y (x - y)
      have harg : y + (x - y) = x := by ring
      rw [harg] at hs
      refine ⟨?_, ?_, ?_⟩
      · intro i hi
        have hi0 : i = 0 := by simpa using hi
        subst hi0
        simp
      · intro i hpos hlt
        match i, hpos with
        | j + 1, _ =>
          simp only [List.getD_cons_succ]
          rw [hs.1]
          exact getD_map_add _ _ j (by
            rw [cadenceAux_length]
            simpa using hlt)
      · simp [hs.2]
    | d :: pre2 =>
      rw [List.cons_append]
      simp only [cadenceRun, List.headD_cons, List.tail_cons]
      have hlen2 : pre2.length < ts.length := by simpa using hlen8
      have hrec := cadenceAux_diff gap pre2 ts post t d x y hlen2
      refine ⟨?_, ?_, ?_⟩
      · intro i hi
        match i with
        | 0 => simp
        | j + 1 =>
          simp only [List.getD_cons_succ]
          exact hrec.1 j (by simpa using hi)
      · intro i hpos hlt
        match i, hpos, hlt with
        | j + 1, hpos9, hlt9 =>
          simp only [List.getD_cons_succ]
          exact hrec.2.1 j (by simpa using hpos9) (by simpa using hlt9)
      · exact hrec.2.2

/-! ## C6: empty-input render length -/

/-- C6.  On empty input the upload-page mixer floors the render length at one
sample, but the main-page mixer computes
`Math.ceil(0 * 44100) = 0` and passes it to `OfflineAudioContext`, whose
construction rejects a zero length: the render buffer length of the main page
is 0 on empty input, violating the minimum floor of 1 sample the claim (and
the upload page) requires. -/
theorem empty_input_render_length :
    mainRenderLength [] [] [] = 0 ∧ uploadRenderLength [] [] [] [] [] = 1 := by
  constructor
  · norm_num [mainRenderLength, decodeSegments, segmentTimeline, cadenceRun,
      decodeOverlays, maxOverlayEnd, mixSampleRate]
  · norm_num [uploadRenderLength, decodeSegments, lineTimeline, cadenceRun,
      decodeOverlays, maxOverlayEnd, mixSampleRate]

/-! ## C7: decode-failure isolation -/

/-- C7 counterexample.  Five one-second narration units with the third one
corrupt: the decode failure is replaced by the one-frame placeholder, so the
final cursor is 4 + 1/44100 seconds, which differs from the 4 seconds
obtained when the corrupt clip is replaced by silence of length 0 — the
failed clip advances the cursor by 1/44100, not by 0. -/
theorem decode_failure_isolation_counterexample :
    (segmentTimeline [.narration, .narration, .narration, .narration, .narration]
      ((decodeSegments [some oneSecondClip, some oneSecondClip, none,
        some oneSecondClip, some oneSecondClip]).map AudioBuffer.duration)).2 =
      4 + 1/44100 ∧
    (segmentTimeline [.narration, .narration, .narration, .narration, .narration]
      [1, 1, 0, 1, 1]).2 = 4 ∧
    (4 : ℚ) + 1/44100 ≠ 4 := by
  refine ⟨?_, ?_, by norm_num⟩ <;>
    norm_num [segmentTimeline, cadenceRun, cadenceAux, gapFor, decodeSegments,
      AudioBuffer.duration, oneSecondClip, placeholder]

/-- C7 as amended.  A narrative unit whose audio fails to decode is replaced
by the one-frame silent placeholder of duration 1/44100 s: it still receives
the same start time as in the render where it is silence of length 0, every
unit before it is unaffected, and every unit after it — and the final
cursor — shifts by exactly 1/44100 s (not 0). -/
theorem decode_failure_isolation_amended (units : List SegmentType)
    (preA postA : List (Option AudioBuffer)) (hlen : preA.length < units.length) :
    placeholder.duration = 1/44100 ∧
    (∀ i, i ≤ preA.length →
      (segmentTimeline units
          ((decodeSegments (preA ++ none :: postA)).map AudioBuffer.duration)).1.getD i 0 =
        (segmentTimeline units
          ((decodeSegments preA).map AudioBuffer.duration ++
            0 :: (decodeSegments postA).map AudioBuffer.duration)).1.getD i 0) ∧
    (∀ i, preA.length < i → i < units.length →
      (segmentTimeline units
          ((decodeSegments (preA ++ none :: postA)).map AudioBuffer.duration)).1.getD i 0 =
        (segmentTimeline units
          ((decodeSegments preA).map AudioBuffer.duration ++
            0 :: (decodeSegments postA).map AudioBuffer.duration)).1.getD i 0 + 1/44100) ∧
    (segmentTimeline units
        ((decodeSegments (preA ++ none :: postA)).map AudioBuffer.duration)).2 =
      (segmentTimeline units
        ((decodeSegments preA).map AudioBuffer.duration ++
          0 :: (decodeSegments postA).map AudioBuffer.duration)).2 + 1/44100 := by
  have hsplit : (decodeSegments (preA ++ none :: postA)).map AudioBuffer.duration =
      (decodeSegments preA).map AudioBuffer.duration ++
        placeholder.duration :: (decodeSegments postA).map AudioBuffer.duration := by
    simp [decodeSegments]
  have hdur : placeholder.duration = 1/44100 := by
    norm_num [placeholder, AudioBuffer.duration]
  have hlen2 : ((decodeSegments preA).map AudioBuffer.duration).length < units.length := by
    simpa [decodeSegments] using hlen
  have hd := cadenceRun_diff gapFor units
    ((decodeSegments preA).map AudioBuffer.duration)
    ((decodeSegments postA).map AudioBuffer.duration)
    placeholder.duration 0 hlen2
  rw [hdur] at hd
  have hsub : (1 : ℚ)/44100 - 0 = 1/44100 := by norm_num
  rw [hsub] at hd
  have hpre : ((decodeSegments preA).map AudioBuffer.duration).length = preA.length := by
    simp [decodeSegments]
  refine ⟨hdur, ?_, ?_, ?_⟩
  · intro i hi
    rw [segmentTimeline, hsplit, hdur]
    exact hd.1 i (by omega)
  · intro i h1 h2
    rw [segmentTimeline, hsplit, hdur]
    exact hd.2.1 i (by omega) h2
  · rw [segmentTimeline, hsplit, hdur]
    exact hd.2.2

/-- Witness for the amended C7: with the corrupt third clip among five
one-second clips, the final cursor exceeds the length-0 replacement by
exactly 1/44100 s. -/
theorem decode_failure_isolation_amended_witness :
    (segmentTimeline [.narration, .narration, .narration, .narration, .narration]
        ((decodeSegments [some oneSecondClip, some oneSecondClip, none,
          some oneSecondClip, some oneSecondClip]).map AudioBuffer.duration)).2 =
      (segmentTimeline [.narration, .narration, .narration, .narration, .narration]
        ((decodeSegments [some oneSecondClip, some oneSecondClip]).map AudioBuffer.duration ++
          0 :: (decodeSegments [some oneSecondClip,
            some oneSecondClip]).map AudioBuffer.duration)).2 + 1/44100 :=
  (decode_failure_isolation_amended
    [.narration, .narration, .narration, .narration, .narration]
    [some oneSecondClip, some oneSecondClip]
    [some oneSecondClip, some oneSecondClip] (by norm_num)).2.2.2

/-! ## C8: silent-clip normalization safety -/

theorem foldl_le_of_le (g : ℚ → β → ℚ) (hg : ∀ p x, p ≤ g p x) :
    ∀ (l : List β) (a : ℚ), a ≤ l.foldl g a := by
  intro l
  induction l with
  | nil => intro a; simp
  | cons x xs ih =>
    intro a
    calc a ≤ g a x := hg a x
    _ ≤ xs.foldl g (g a x) := ih (g a x)

theorem clipPeak_nonneg (buf : AudioBuffer) : 0 ≤ clipPeak buf := by
  unfold clipPeak
  refine foldl_le_of_le _ ?_ _ 0
  intro p ch
  exact foldl_le_of_le _ (fun q s => le_max_left _ _) _ p

/-- C8.  Effect normalization is division-safe: the computed peak is always
non-negative; a clip with peak 0 receives exactly the fallback gain
`TARGET_PEAK` (no division happens), a clip with positive peak receives
`TARGET_PEAK / peak` (so gain · peak = TARGET_PEAK), and the gain is strictly
positive — hence always a well-defined finite positive number, never the
result of dividing by zero. -/
theorem silent_clip_gain (buf : AudioBuffer) :
    0 ≤ clipPeak buf ∧
    (clipPeak buf = 0 → sfxGain buf = TARGET_PEAK) ∧
    (0 < clipPeak buf → sfxGain buf * clipPeak buf = TARGET_PEAK) ∧
    0 < sfxGain buf := by
  refine ⟨clipPeak_nonneg buf, ?_, ?_, ?_⟩
  · intro h
    unfold sfxGain
    rw [h]
    norm_num
  · intro h
    unfold sfxGain
    rw [if_pos h]
    exact div_mul_cancel₀ _ (ne_of_gt h)
  · unfold sfxGain
    split
    · next h =>
      apply div_pos _ h
      norm_num [TARGET_PEAK]
    · norm_num [TARGET_PEAK]

/-- Witness for C8 at a concrete all-zero clip: the peak is 0 and the gain is
the fallback `TARGET_PEAK`. -/
theorem silent_clip_gain_witness :
    clipPeak silentClip = 0 ∧ sfxGain silentClip = TARGET_PEAK :=
  ⟨by decide, (silent_clip_gain silentClip).2.1 (by decide)⟩

/-! ## C9: render format provenance -/

/-- C9 counterexample.  When the first speech clip fails to decode and the
second decodes to a stereo 48 kHz buffer, the mix format is the first slot
placeholder 44100 Hz mono, not the later clip format the claim promises. -/
theorem render_format_counterexample :
    mixSampleRate (decodeSegments [none, some stereo48kClip]) = 44100 ∧
    mixNumChannels (decodeSegments [none, some stereo48kClip]) = 1 ∧
    stereo48kClip.sampleRate = 48000 ∧
    stereo48kClip.numberOfChannels = 2 ∧
    mixSampleRate (decodeSegments [none, some stereo48kClip]) ≠
      stereo48kClip.sampleRate := by decide

/-- C9 as amended.  The mix sample rate and channel count come from the first
speech slot only: the first clip when it decodes, the 44100 Hz mono
placeholder when the first clip fails to decode, and the 44100 Hz mono
default when there are no speech clips at all; a later clip never
contributes. -/
theorem render_format_amended :
    (∀ rest : List (Option AudioBuffer),
      mixSampleRate (decodeSegments (none :: rest)) = placeholder.sampleRate ∧
      mixNumChannels (decodeSegments (none :: rest)) = placeholder.numberOfChannels) ∧
    (∀ (b : AudioBuffer) (rest : List (Option AudioBuffer)),
      mixSampleRate (decodeSegments (some b :: rest)) = b.sampleRate ∧
      mixNumChannels (decodeSegments (some b :: rest)) = b.numberOfChannels) ∧
    mixSampleRate (decodeSegments []) = 44100 ∧
    mixNumChannels (decodeSegments []) = 1 ∧
    placeholder.sampleRate = 44100 ∧ placeholder.numberOfChannels = 1 :=
  ⟨fun _ => ⟨rfl, rfl⟩, fun _ _ => ⟨rfl, rfl⟩, rfl, rfl, rfl, rfl⟩

/-! ## C10: asymmetric overlay failure recovery -/

/-- C10.  An overlay clip whose payload fails to decode is skipped outright:
the placed-overlay list is the same as if the item were absent, so it
contributes nothing to the total render duration and no substitute buffer is
created; a failed speech clip, by contrast, still occupies its slot as the
silent placeholder, preserving the one-buffer-per-clip shape. -/
theorem overlay_skip_asymmetry (st : List ℚ) (l1 l2 : List OverlayItem)
    (idx : ℕ) (t : ℚ) (pre post : List (Option AudioBuffer)) :
    decodeOverlays st (l1 ++ ⟨idx, t, none⟩ :: l2) = decodeOverlays st (l1 ++ l2) ∧
    (∀ c : ℚ, max c (maxOverlayEnd (decodeOverlays st (l1 ++ ⟨idx, t, none⟩ :: l2))) =
      max c (maxOverlayEnd (decodeOverlays st (l1 ++ l2)))) ∧
    decodeSegments (pre ++ none :: post) =
      decodeSegments pre ++ placeholder :: decodeSegments post ∧
    (decodeSegments (pre ++ none :: post)).length = pre.length + 1 + post.length := by
  have h1 : decodeOverlays st (l1 ++ ⟨idx, t, none⟩ :: l2) = decodeOverlays st (l1 ++ l2) := by
    simp [decodeOverlays]
  refine ⟨h1, fun c => by rw [h1], ?_, ?_⟩
  · simp [decodeSegments]
  · simp [decodeSegments]
    omega

/-! ## Byte-list lemmas for the container encoder -/

theorem getD_append_left2 (l1 l2 : List ℕ) (i : ℕ) (h : i < l1.length) :
    (l1 ++ l2).getD i 0 = l1.getD i 0 := by
  simp only [List.getD_eq_getElem?_getD, List.getElem?_append_left h]

theorem getD_append_right2 (l1 l2 : List ℕ) (i : ℕ) (h : l1.length ≤ i) :
    (l1 ++ l2).getD i 0 = l2.getD (i - l1.length) 0 := by
  simp only [List.getD_eq_getElem?_getD, List.getElem?_append_right h]

theorem flatten_map_range_length (g : ℕ → List ℕ) (c : ℕ) (hg : ∀ k, (g k).length = c) :
    ∀ n, ((List.range n).map g).flatten.length = n * c := by
  intro n
  induction n with
  | zero => simp
  | succ m ih =>
    rw [List.range_succ, List.map_append, List.flatten_append]
    simp only [List.length_append, ih, List.map_cons, List.map_nil, List.flatten_cons,
      List.flatten_nil, List.append_nil, hg m]
    ring

theorem flatten_map_range_getD (g : ℕ → List ℕ) (c : ℕ) (hg : ∀ k, (g k).length = c) :
    ∀ (n f j : ℕ), f < n → j < c →
      ((List.range n).map g).flatten.getD (f * c + j) 0 = (g f).getD j 0 := by
  intro n
  induction n with
  | zero => intro f j hf; omega
  | succ m ih =>
    intro f j hf hj
    rw [List.range_succ, List.map_append, List.flatten_append]
    by_cases hfm : f < m
    · rw [getD_append_left2]
      · exact ih f j hfm hj
      · rw [flatten_map_range_length g c hg m]
        have h1 : (f + 1) * c ≤ m * c := Nat.mul_le_mul_right c (by omega)
        have h2 : (f + 1) * c = f * c + c := by ring
        omega
    · have hfm2 : f = m := by omega
      subst hfm2
      rw [getD_append_right2]
      · rw [flatten_map_range_length g c hg f]
        simp only [List.map_cons, List.map_nil, List.flatten_cons, List.flatten_nil,
          List.append_nil]
        congr 1
        omega
      · rw [flatten_map_range_length g c hg f]
        omega

theorem sampleBytes_length (s : ℚ) : (sampleBytes s).length = 2 := rfl

theorem wavData_length (buf : AudioBuffer) :
    (wavData buf).length = buf.frames * buf.numberOfChannels * 2 := by
  unfold wavData
  rw [flatten_map_range_length _ (buf.numberOfChannels * 2)]
  · ring
  · intro k
    exact flatten_map_range_length _ 2 (fun _ => sampleBytes_length _) _

theorem wavData_getD (buf : AudioBuffer) (f ch j : ℕ) (hf : f < buf.frames)
    (hch : ch < buf.numberOfChannels) (hj : j < 2) :
    (wavData buf).getD ((f * buf.numberOfChannels + ch) * 2 + j) 0 =
      (sampleBytes (buf.channelData ch f)).getD j 0 := by
  unfold wavData
  have hrow : ∀ k, (((List.range buf.numberOfChannels).map fun c =>
      sampleBytes (buf.channelData c k)).flatten).length = buf.numberOfChannels * 2 :=
    fun k => flatten_map_range_length _ 2 (fun _ => sampleBytes_length _) _
  have hidx : (f * buf.numberOfChannels + ch) * 2 + j =
      f * (buf.numberOfChannels * 2) + (ch * 2 + j) := by ring
  rw [hidx]
  rw [flatten_map_range_getD _ (buf.numberOfChannels * 2) hrow buf.frames f (ch * 2 + j)
    hf (by omega)]
  exact flatten_map_range_getD _ 2 (fun _ => sampleBytes_length _)
    buf.numberOfChannels ch j hch hj

theorem readByte_header_skip (buf : AudioBuffer) (v : ℕ) :
    readByte (audioBufferToWav buf) (44 + v) = readByte (wavData buf) v := by
  unfold audioBufferToWav readByte
  have hl : (wavHeader buf.numberOfChannels buf.sampleRate buf.frames).length = 44 := rfl
  rw [getD_append_right2 _ _ _ (by rw [hl]; omega), hl]
  congr 1
  omega

theorem readU16_header_skip (buf : AudioBuffer) (v : ℕ) :
    readU16 (audioBufferToWav buf) (44 + v) = readU16 (wavData buf) v := by
  unfold readU16
  rw [readByte_header_skip, show 44 + v + 1 = 44 + (v + 1) by omega, readByte_header_skip]

theorem readI16_congr (bs1 bs2 : List ℕ) (i1 i2 : ℕ)
    (h : readU16 bs1 i1 = readU16 bs2 i2) : readI16 bs1 i1 = readI16 bs2 i2 := by
  unfold readI16
  rw [h]

theorem readI16_i16le (v : ℤ) (h1 : -32768 ≤ v) (h2 : v ≤ 32767) :
    readI16 (i16le v) 0 = v := by
  unfold readI16 readU16 readByte i16le u16le
  simp only [List.getD_cons_zero, List.getD_cons_succ]
  omega

theorem clampSample_mem (s : ℚ) : -1 ≤ clampSample s ∧ clampSample s ≤ 1 := by
  unfold clampSample
  constructor
  · exact le_max_left _ _
  · exact max_le (by norm_num) (min_le_left _ _)

theorem sampleToInt16_range (s : ℚ) :
    -32768 ≤ sampleToInt16 s ∧ sampleToInt16 s ≤ 32767 := by
  obtain ⟨hc1, hc2⟩ := clampSample_mem s
  unfold sampleToInt16
  by_cases h : clampSample s < 0
  · rw [if_pos h]
    unfold truncTowardZero
    rw [if_pos (mul_neg_of_neg_of_pos h (by norm_num))]
    constructor
    · have hlow : ((-32768 : ℚ)) ≤ clampSample s * 32768 := by nlinarith
      calc (-32768 : ℤ) = ⌈((-32768 : ℤ) : ℚ)⌉ := (Int.ceil_intCast _).symm
      _ ≤ ⌈clampSample s * 32768⌉ := Int.ceil_le_ceil (by push_cast; exact hlow)
    · have hup : clampSample s * 32768 ≤ ((0 : ℤ) : ℚ) := by
        push_cast
        exact le_of_lt (mul_neg_of_neg_of_pos h (by norm_num))
      have h0 : ⌈clampSample s * 32768⌉ ≤ 0 := Int.ceil_le.mpr hup
      omega
  · rw [if_neg h]
    push_neg at h
    unfold truncTowardZero
    rw [if_neg (not_lt.mpr (mul_nonneg h (by norm_num)))]
    constructor
    · have h0 : (0 : ℤ) ≤ ⌊clampSample s * 32767⌋ :=
        Int.floor_nonneg.mpr (mul_nonneg h (by norm_num))
      omega
    · have : clampSample s * 32767 ≤ 32767 := by nlinarith
      calc ⌊clampSample s * 32767⌋ ≤ ⌊(32767 : ℚ)⌋ := Int.floor_le_floor this
      _ = 32767 := by norm_num

/-! ## C5: container encoding -/

/-- C5.  For a rendered buffer of L frames, C channels and sample rate R
(with the realistic bounds that the 16- and 32-bit header fields do not
overflow), the encoder output is exactly 44 + L·C·2 bytes: the 44-byte
header stores RIFF size 36 + dataSize, PCM format tag 1, channel count C,
sample rate R, byte rate R·C·2, block align C·2, bit depth 16 and data size
L·C·2 at their canonical offsets, and the data section holds the interleaved
samples, each clamped to [-1, 1] and then scaled by 32768 when negative and
by 32767 otherwise, stored as a signed 16-bit integer. -/
theorem wav_encoding_correct (buf : AudioBuffer)
    (hch : buf.numberOfChannels * 2 < 65536)
    (hsr : buf.sampleRate < 4294967296)
    (hbr : buf.sampleRate * buf.numberOfChannels * 2 < 4294967296)
    (hds : 36 + buf.frames * buf.numberOfChannels * 2 < 4294967296) :
    (audioBufferToWav buf).length = 44 + buf.frames * buf.numberOfChannels * 2 ∧
    readU32 (audioBufferToWav buf) 4 = 36 + buf.frames * buf.numberOfChannels * 2 ∧
    readU16 (audioBufferToWav buf) 20 = 1 ∧
    readU16 (audioBufferToWav buf) 22 = buf.numberOfChannels ∧
    readU32 (audioBufferToWav buf) 24 = buf.sampleRate ∧
    readU32 (audioBufferToWav buf) 28 = buf.sampleRate * buf.numberOfChannels * 2 ∧
    readU16 (audioBufferToWav buf) 32 = buf.numberOfChannels * 2 ∧
    readU16 (audioBufferToWav buf) 34 = 16 ∧
    readU32 (audioBufferToWav buf) 40 = buf.frames * buf.numberOfChannels * 2 ∧
    (∀ f ch, f < buf.frames → ch < buf.numberOfChannels →
      readI16 (audioBufferToWav buf) (44 + (f * buf.numberOfChannels + ch) * 2) =
        sampleToInt16 (buf.channelData ch f) ∧
      -32768 ≤ sampleToInt16 (buf.channelData ch f) ∧
      sampleToInt16 (buf.channelData ch f) ≤ 32767) := by
  have hlen : (audioBufferToWav buf).length =
      44 + buf.frames * buf.numberOfChannels * 2 := by
    unfold audioBufferToWav
    rw [List.length_append, wavData_length]
    have hh : (wavHeader buf.numberOfChannels buf.sampleRate buf.frames).length = 44 := rfl
    omega
  refine ⟨hlen, ?_, ?_, ?_, ?_, ?_, ?_, ?_, ?_, ?_⟩
  · simp only [audioBufferToWav, wavHeader, u16le, u32le, readU32, readU16, readByte,
      List.cons_append, List.nil_append, List.getD_cons_succ, List.getD_cons_zero]
    omega
  · simp only [audioBufferToWav, wavHeader, u16le, u32le, readU16, readByte,
      List.cons_append, List.nil_append, List.getD_cons_succ, List.getD_cons_zero]
  · simp only [audioBufferToWav, wavHeader, u16le, u32le, readU16, readByte,
      List.cons_append, List.nil_append, List.getD_cons_succ, List.getD_cons_zero]
    omega
  · simp only [audioBufferToWav, wavHeader, u16le, u32le, readU32, readU16, readByte,
      List.cons_append, List.nil_append, List.getD_cons_succ, List.getD_cons_zero]
    omega
  · simp only [audioBufferToWav, wavHeader, u16le, u32le, readU32, readU16, readByte,
      List.cons_append, List.nil_append, List.getD_cons_succ, List.getD_cons_zero]
    omega
  · simp only [audioBufferToWav, wavHeader, u16le, u32le, readU16, readByte,
      List.cons_append, List.nil_append, List.getD_cons_succ, List.getD_cons_zero]
    omega
  · simp only [audioBufferToWav, wavHeader, u16le, u32le, readU16, readByte,
      List.cons_append, List.nil_append, List.getD_cons_succ, List.getD_cons_zero]
  · simp only [audioBufferToWav, wavHeader, u16le, u32le, readU32, readU16, readByte,
      List.cons_append, List.nil_append, List.getD_cons_succ, List.getD_cons_zero]
    omega
  · intro f ch hf hch2
    have hrange := sampleToInt16_range (buf.channelData ch f)
    have hread : readU16 (audioBufferToWav buf) (44 + (f * buf.numberOfChannels + ch) * 2) =
        readU16 (sampleBytes (buf.channelData ch f)) 0 := by
      rw [readU16_header_skip]
      unfold readU16 readByte
      rw [show (f * buf.numberOfChannels + ch) * 2 =
          (f * buf.numberOfChannels + ch) * 2 + 0 by omega]
      rw [wavData_getD buf f ch 0 hf hch2 (by omega)]
      rw [show (f * buf.numberOfChannels + ch) * 2 + 0 + 1 =
          (f * buf.numberOfChannels + ch) * 2 + 1 by omega]
      rw [wavData_getD buf f ch 1 hf hch2 (by omega)]
    refine ⟨?_, hrange.1, hrange.2⟩
    rw [readI16_congr _ _ _ _ hread]
    exact readI16_i16le _ hrange.1 hrange.2

/-- Witness for C5 at the concrete two-frame demo buffer: the output is 48
bytes and the two samples decode to ⌊0.5·32767⌋ = 16383 and the clamped
negative sample −0.75·32768 = −24576. -/
theorem wav_encoding_correct_witness :
    demoClip.numberOfChannels * 2 < 65536 ∧
    (audioBufferToWav demoClip).length = 48 ∧
    readU32 (audioBufferToWav demoClip) 24 = 8000 ∧
    readI16 (audioBufferToWav demoClip) (44 + (0 * demoClip.numberOfChannels + 0) * 2) =
      sampleToInt16 (demoClip.channelData 0 0) ∧
    sampleToInt16 (demoClip.channelData 0 0) = 16383 ∧
    readI16 (audioBufferToWav demoClip) (44 + (1 * demoClip.numberOfChannels + 0) * 2) =
      sampleToInt16 (demoClip.channelData 0 1) ∧
    sampleToInt16 (demoClip.channelData 0 1) = -24576 := by
  have h := wav_encoding_correct demoClip (by norm_num [demoClip]) (by norm_num [demoClip])
    (by norm_num [demoClip]) (by norm_num [demoClip])
  refine ⟨by norm_num [demoClip], ?_, ?_, ?_, ?_, ?_, ?_⟩
  · have h1 := h.1
    norm_num [demoClip] at h1
    exact h1
  · have := h.2.2.2.2.1
    simpa [demoClip] using this
  · exact (h.2.2.2.2.2.2.2.2.2 0 0 (by norm_num [demoClip]) (by norm_num [demoClip])).1
  · norm_num [demoClip, sampleToInt16, clampSample, truncTowardZero]
  · exact (h.2.2.2.2.2.2.2.2.2 1 0 (by norm_num [demoClip]) (by norm_num [demoClip])).1
  · norm_num [demoClip, sampleToInt16, clampSample, truncTowardZero, Int.ceil_eq_iff]

end SoundReader
